import Mathlib

/-!
# RECORDER client: locator, action normaliser and recording session

A shallow embedding of `src/client.js`.

* DOM nodes are immutable records carrying exactly the properties the code reads
  (`nodeType`, `nodeName`, `previousSibling`, `parentNode`); `null` is a constructor.
* JavaScript strings are Lean strings; `startsWith`, `replace` and `join` are
  written over the underlying character lists.
* `String.prototype.toLowerCase` is a builtin; every definition that uses it takes the
  lowering function as the argument `toLowerCase`.
* The host collaborators (`CONTEXT.setStorage`, `CONTEXT.getVariable`, `Swal.fire`,
  `SOCKET.emit`, `console`) are not part of the source file. Their outcomes are
  arguments of the operations and their effects are fields of `World`; the calls that
  write the store, show the prompt or emit are also kept, in order, in `World.trace`.
* `document.title` is an accessor: assigning stores the text as given, reading answers the
  stored text with ASCII whitespace stripped and collapsed (`documentTitle`).
* Numbers are only copied by the code, never computed with; they are carried as integers.
-/

namespace Recorder

/-! ## JavaScript values -/

/-- The JavaScript values the recorder copies into a record. -/
inductive JSValue where
  | undefined
  | null
  | bool (b : Bool)
  | num (n : Int)
  | str (s : String)
  deriving DecidableEq, Repr

/-- JavaScript truthiness, as used by `value || null`. -/
def JSValue.truthy : JSValue → Bool
  | .undefined => false
  | .null => false
  | .bool b => b
  | .num n => decide (n ≠ 0)
  | .str s => decide (s ≠ "")

/-- The expression `a || b`. -/
def JSValue.or (a b : JSValue) : JSValue :=
  if a.truthy then a else b

/-! ## DOM nodes and the locator builder -/

/-- A DOM node reference as `getElementXPath` sees it. -/
inductive DomNode where
  | null
  | node (nodeType : Nat) (nodeName : String) (previousSibling : DomNode)
      (parentNode : DomNode)
  deriving DecidableEq, Repr

/-- The constant `Node.ELEMENT_NODE`. -/
def ELEMENT_NODE : Nat := 1

/-- The constant `Node.DOCUMENT_TYPE_NODE`. -/
def DOCUMENT_TYPE_NODE : Nat := 10

/-- The inner loop of `getElementXPath`: starting at `sibling`, follow `previousSibling`
until `null`, skipping doctype nodes and incrementing `index` for each node whose
`nodeName` equals that of the element. -/
def siblingLoop (nodeName : String) : DomNode → Nat → Nat
  | .null, index => index
  | .node ty nm previousSibling _, index =>
    if ty = DOCUMENT_TYPE_NODE then siblingLoop nodeName previousSibling index
    else if nm = nodeName then siblingLoop nodeName previousSibling (index + 1)
    else siblingLoop nodeName previousSibling index

/-- The template literal that builds `pathIndex`: empty when `index` is falsy (zero). -/
def pathIndex (index : Nat) : String :=
  if index ≠ 0 then "[" ++ toString (index + 1) ++ "]" else ""

/-- The outer loop of `getElementXPath`: while `element` is non-null and an element node,
`unshift` its segment onto `paths` and move to `parentNode`. -/
def parentLoop (toLowerCase : String → String) : DomNode → List String → List String
  | .null, paths => paths
  | .node ty nm previousSibling parentNode, paths =>
    if ty = ELEMENT_NODE then
      let index := siblingLoop nm previousSibling 0
      let tagName := toLowerCase nm
      parentLoop toLowerCase parentNode ((tagName ++ pathIndex index) :: paths)
    else paths

/-- The function `getElementXPath(element)`; `none` is `null`. -/
def getElementXPath (toLowerCase : String → String) (element : DomNode) : Option String :=
  let paths := parentLoop toLowerCase element []
  if paths.length ≠ 0 then some ("/" ++ "/".intercalate paths) else none

/-- ASCII lowering, a concrete `toLowerCase` for evaluating examples. -/
def asciiLower (s : String) : String :=
  String.mk (s.data.map Char.toLower)

/-! ## Document trees

`getElementXPath` reads a node through its `previousSibling` and `parentNode` links. To speak
about two elements of one document the links are derived from a tree of child lists. -/

/-- A document tree: a node with its list of children, in document order. -/
inductive DomTree where
  | mk (nodeType : Nat) (nodeName : String) (childNodes : List DomTree)

/-- The `nodeType` of the root of a tree. -/
def DomTree.nodeType : DomTree → Nat
  | .mk t _ _ => t

/-- The `nodeName` of the root of a tree. -/
def DomTree.nodeName : DomTree → String
  | .mk _ n _ => n

/-- The children of the root of a tree. -/
def DomTree.childNodes : DomTree → List DomTree
  | .mk _ _ c => c

/-- The `previousSibling` link of a node whose preceding siblings are `before`, listed nearest
first; every node of the chain has parent `parent`. -/
def siblingChain (parent : DomNode) : List DomTree → DomNode
  | [] => .null
  | t :: before => .node t.nodeType t.nodeName (siblingChain parent before) parent

/-- The reference to child number `i` of the node `self`, whose children are `children`. -/
def childRef (self : DomNode) (children : List DomTree) (i : Nat) (c : DomTree) : DomNode :=
  .node c.nodeType c.nodeName (siblingChain self (children.take i).reverse) self

/-- The reference to the node reached from `t` by the child indices `addr` (root first), where
`self` is the reference to `t` itself; `null` when an index is out of range. -/
def locateFrom : List Nat → DomTree → DomNode → DomNode
  | [], _, self => self
  | i :: rest, t, self =>
    match t.childNodes[i]? with
    | none => .null
    | some c => locateFrom rest c (childRef self t.childNodes i c)

/-- The reference to the node at address `addr` of the document tree `root`. -/
def locate (root : DomTree) (addr : List Nat) : DomNode :=
  locateFrom addr root (.node root.nodeType root.nodeName .null .null)

/-- Every node strictly below the root on the way to `addr`, the target included, exists and
is an element: `addr` is the address of an element of the document. -/
def isElementAt : List Nat → DomTree → Bool
  | [], _ => true
  | i :: rest, t =>
    match t.childNodes[i]? with
    | none => false
    | some c => decide (c.nodeType = ELEMENT_NODE) && isElementAt rest c

mutual
/-- The predicate `p` holds at every node of the tree. -/
def DomTree.all (p : DomTree → Bool) : DomTree → Bool
  | .mk t n cs => p (.mk t n cs) && DomTree.allList p cs
/-- The predicate `p` holds at every node of every tree of the list. -/
def DomTree.allList (p : DomTree → Bool) : List DomTree → Bool
  | [] => true
  | c :: cs => DomTree.all p c && DomTree.allList p cs
end

/-- The address of an element of the document: the root itself when it is an element, or a
node below it reached through elements only. -/
def isElementAddr (root : DomTree) (addr : List Nat) : Bool :=
  match addr with
  | [] => decide (root.nodeType = ELEMENT_NODE)
  | _ :: _ => isElementAt addr root

/-- Among the children of `t`, two elements whose names have the same lower-cased form have
the same name. -/
def caseConsistent (toLowerCase : String → String) (t : DomTree) : Bool :=
  t.childNodes.all fun x => t.childNodes.all fun y =>
    decide (x.nodeType = ELEMENT_NODE → y.nodeType = ELEMENT_NODE →
      toLowerCase x.nodeName = toLowerCase y.nodeName → x.nodeName = y.nodeName)

/-- The lower-cased name of `t`, when `t` is an element, contains neither `/` nor `[`. -/
def plainName (toLowerCase : String → String) (t : DomTree) : Bool :=
  decide (t.nodeType = ELEMENT_NODE →
    '/' ∉ (toLowerCase t.nodeName).data ∧ '[' ∉ (toLowerCase t.nodeName).data)

/-- The number of nodes of `siblings` that are not doctype nodes and are named `nodeName`. -/
def sameNameCount (nodeName : String) (siblings : List DomTree) : Nat :=
  (siblings.filter fun s =>
    decide (s.nodeType ≠ DOCUMENT_TYPE_NODE) && decide (s.nodeName = nodeName)).length

/-- The nodes of a `previousSibling` chain, nearest first, as (`nodeType`, `nodeName`). -/
def precedingSiblings : DomNode → List (Nat × String)
  | .null => []
  | .node ty nm previousSibling _ => (ty, nm) :: precedingSiblings previousSibling

/-- The position of an element among its like-named siblings, counted from one, doctype
nodes left out: one more than the number of preceding siblings with its name. -/
def ordinalAmongSameTag (nodeName : String) (previousSibling : DomNode) : Nat :=
  ((precedingSiblings previousSibling).filter fun s =>
    decide (s.1 ≠ DOCUMENT_TYPE_NODE) && decide (s.2 = nodeName)).length + 1

/-! ## Action records and the persisted store -/

/-- One captured interaction, the object `data` of `captureAction`. -/
structure ActionRecord where
  tagName : JSValue
  action : String
  value : JSValue
  selector : Option String
  location : String
  timestamp : String
  additionalInfo : List (String × JSValue)
  deriving DecidableEq, Repr

/-- The object stored under `record_temp`: properties in insertion order. -/
abbrev Buffer := List (String × ActionRecord)

/-- Property read `buffer[key]`. -/
def Buffer.get? : Buffer → String → Option ActionRecord
  | [], _ => none
  | (k, v) :: rest, key => if k = key then some v else Buffer.get? rest key

/-- Property assignment `buffer[key] = record`: an existing property is overwritten in place,
a new one is added at the end. -/
def Buffer.set : Buffer → String → ActionRecord → Buffer
  | [], key, record => [(key, record)]
  | (k, v) :: rest, key, record =>
    if k = key then (k, record) :: rest else (k, v) :: Buffer.set rest key record

/-- Whether `key` is a property of the buffer. -/
def Buffer.hasKey (b : Buffer) (key : String) : Bool :=
  (Buffer.get? b key).isSome

/-- The persisted key-value store, restricted to the two keys the module uses; `none` is an
absent key. -/
structure Store where
  isRecording : Option Bool
  record_temp : Option Buffer
  deriving DecidableEq, Repr

/-- The result object of `CONTEXT.setStorage`. -/
structure StorageResult where
  success : Bool
  error : String
  deriving DecidableEq, Repr

/-- Modelled from the spec: `CONTEXT.getVariable(key, defaultValue)` of the host module
context, which is not in the source file. It answers the persisted value, or the default when
the key is absent. -/
def getVariable {α : Type} (stored : Option α) (defaultValue : α) : α :=
  stored.getD defaultValue

/-- Modelled from the spec: `CONTEXT.setStorage('isRecording', value)` of the host module
context, which is not in the source file. A successful write stores the value; a failed
write leaves the store unchanged. -/
def Store.setIsRecording (s : Store) (result : StorageResult) (value : Bool) : Store :=
  if result.success then { s with isRecording := some value } else s

/-- Modelled from the spec: `CONTEXT.setStorage('record_temp', value)` of the host module
context, which is not in the source file. A successful write stores the value; a failed
write leaves the store unchanged. -/
def Store.setRecordTemp (s : Store) (result : StorageResult) (value : Buffer) : Store :=
  if result.success then { s with record_temp := some value } else s

/-- One call of `console.log` or `console.error`. -/
inductive LogEntry where
  | log (message : String)
  | error (message : String) (detail : String)
  | data (record : ActionRecord)
  deriving DecidableEq, Repr

/-- One call of `SOCKET.emit(eventName, {name, history})`. -/
structure Emit where
  eventName : String
  name : String
  history : Buffer
  deriving DecidableEq, Repr

/-- A value handed to `CONTEXT.setStorage`. -/
inductive StoredValue where
  | flag (value : Bool)
  | buffer (value : Buffer)
  deriving DecidableEq, Repr

/-- One call on a host collaborator that acts on the outside: a `CONTEXT.setStorage` with
its key, value and answer, a `Swal.fire`, or a `SOCKET.emit`. -/
inductive Effect where
  | setStorage (key : String) (value : StoredValue) (success : Bool)
  | prompt
  | emit (event : Emit)
  deriving DecidableEq, Repr

/-- Everything the session operations read or change. `title` is the text last assigned to
`document.title` (or the text of the page's title element); `trace` lists the store writes,
prompts and emits in the order the code made them. -/
structure World where
  MODULE_NAME : String
  store : Store
  title : String
  emitted : List Emit
  prompts : Nat
  console : List LogEntry
  trace : List Effect
  deriving DecidableEq, Repr

/-! ## Title decoration -/

/-- The recording marker put in front of the page title. -/
def marker : String := "🔴 Recording - "

/-- ASCII whitespace: tab, line feed, form feed, carriage return and space. -/
def isAsciiWhitespace (c : Char) : Bool :=
  c == '\t' || c == '\n' || c == '\x0c' || c == '\r' || c == ' '

/-- Where the scan of a title stands: before the first word, inside a word, or in the
whitespace after a word. -/
inductive Scan where
  | start
  | word
  | gap
  deriving DecidableEq, Repr

/-- Strip and collapse ASCII whitespace, from a given scan state: whitespace before the first
word and after the last is dropped, every other run of whitespace becomes one space. -/
def collapseFrom : Scan → List Char → List Char
  | _, [] => []
  | .start, c :: cs =>
    if isAsciiWhitespace c then collapseFrom .start cs else c :: collapseFrom .word cs
  | .word, c :: cs =>
    if isAsciiWhitespace c then collapseFrom .gap cs else c :: collapseFrom .word cs
  | .gap, c :: cs =>
    if isAsciiWhitespace c then collapseFrom .gap cs else ' ' :: c :: collapseFrom .word cs

/-- The getter of `document.title`: the stored text with ASCII whitespace stripped and
collapsed. -/
def documentTitle (w : World) : String :=
  String.mk (collapseFrom .start w.title.data)

/-- The list starts with a character that is not whitespace. -/
def startsNonWs : List Char → Bool
  | [] => false
  | d :: _ => !isAsciiWhitespace d

/-- Every whitespace character of the list is a space followed by a character that is not
whitespace. -/
def cleanTail : List Char → Bool
  | [] => true
  | c :: cs =>
    if isAsciiWhitespace c then c == ' ' && startsNonWs cs && cleanTail cs
    else cleanTail cs

/-- The text before the trailing space of the marker. -/
def markerBody : List Char := "🔴 Recording -".data

/-- The method `s.startsWith(p)`. -/
def startsWith (s p : String) : Bool :=
  p.data.isPrefixOf s.data

/-- Replace the first occurrence of `pat` in `s` by `rep`, on character lists. -/
def replaceFirstChars (pat rep : List Char) : List Char → List Char
  | [] => if pat.isPrefixOf [] then rep else []
  | c :: cs =>
    if pat.isPrefixOf (c :: cs) then rep ++ (c :: cs).drop pat.length
    else c :: replaceFirstChars pat rep cs

/-- The method `s.replace(pat, rep)` for a string pattern and a replacement without `$`. -/
def replace (s pat rep : String) : String :=
  String.mk (replaceFirstChars pat.data rep.data s.data)

/-! ## Recording session -/

/-- The function `startRecording`; `result` is what `setStorage` answers. -/
def startRecording (w : World) (result : StorageResult) : World :=
  let w := { w with
    store := w.store.setIsRecording result true
    trace := w.trace ++ [Effect.setStorage "isRecording" (.flag true) result.success] }
  if result.success then
    let w := { w with console := w.console ++ [LogEntry.log "Recording started"] }
    if !(startsWith (documentTitle w) marker) then
      { w with title := marker ++ documentTitle w }
    else w
  else
    { w with console := w.console ++ [LogEntry.error "Failed to start recording:" result.error] }

/-- The function `stopRecording`; `result` is what the first `setStorage` answers,
`recordingTitle` is the `value` the prompt resolves to (`none` is `undefined`), and
`clearResult` is what the second `setStorage` answers, if it is reached. -/
def stopRecording (w : World) (result : StorageResult) (recordingTitle : Option String)
    (clearResult : StorageResult) : World :=
  let w := { w with
    store := w.store.setIsRecording result false
    trace := w.trace ++ [Effect.setStorage "isRecording" (.flag false) result.success] }
  if result.success then
    let w := { w with console := w.console ++ [LogEntry.log "Recording stopped"] }
    let w := { w with title := replace (documentTitle w) marker "" }
    let w := { w with prompts := w.prompts + 1, trace := w.trace ++ [Effect.prompt] }
    let cancelled : World :=
      { w with console := w.console ++ [LogEntry.log "Recording title input was cancelled"] }
    match recordingTitle with
    | none => cancelled
    | some name =>
      if name ≠ "" then
        let payload : Emit :=
          Emit.mk (w.MODULE_NAME ++ ".make:script") name (getVariable w.store.record_temp [])
        let w := { w with
          emitted := w.emitted ++ [payload]
          trace := w.trace ++ [Effect.emit payload] }
        { w with
          store := w.store.setRecordTemp clearResult []
          trace := w.trace ++ [Effect.setStorage "record_temp" (.buffer []) clearResult.success] }
      else cancelled
  else
    { w with console := w.console ++ [LogEntry.error "Failed to stop recording:" result.error] }

/-- The function `toggleRecording`. -/
def toggleRecording (w : World) (result : StorageResult) (recordingTitle : Option String)
    (clearResult : StorageResult) : World :=
  let isRecording := getVariable w.store.isRecording false
  if isRecording then stopRecording w result recordingTitle clearResult
  else startRecording w result

/-- The function `applyRecordingIconIfRecording`. -/
def applyRecordingIconIfRecording (w : World) : World :=
  let isRecording := getVariable w.store.isRecording false
  if isRecording && !(startsWith (documentTitle w) marker) then
    { w with title := marker ++ documentTitle w }
  else w

/-! ## Capture -/

/-- The node `event.target`, never `null` inside a listener, with the properties
`captureAction` and `getElementXPath` read from it. -/
structure EventTarget where
  tagName : JSValue
  value : JSValue
  nodeType : Nat
  nodeName : String
  previousSibling : DomNode
  parentNode : DomNode
  deriving DecidableEq, Repr

/-- The reference handed to `getElementXPath`. -/
def EventTarget.toNode (t : EventTarget) : DomNode :=
  .node t.nodeType t.nodeName t.previousSibling t.parentNode

/-- A DOM event with the properties `captureAction` reads. -/
structure Event where
  target : EventTarget
  type : String
  key : JSValue
  code : JSValue
  keyCode : JSValue
  button : JSValue
  clientX : JSValue
  clientY : JSValue
  screenX : JSValue
  screenY : JSValue
  deriving DecidableEq, Repr

/-- What `captureAction` reads from `window` and the clock: the scroll offsets,
`window.location.href` and `new Date().toISOString()`. -/
structure Ambient where
  scrollX : JSValue
  scrollY : JSValue
  href : String
  now : String
  deriving DecidableEq, Repr

/-- The object `data` that `captureAction` builds before it touches the buffer. -/
def buildRecord (toLowerCase : String → String) (event : Event) (env : Ambient) :
    ActionRecord :=
  let element := event.target
  let tagName := element.tagName
  let action := event.type
  let value := element.value
  let selector := getElementXPath toLowerCase element.toNode
  let data : ActionRecord :=
    { tagName := tagName
      action := action
      value := value.or .null
      selector := selector
      location := env.href
      timestamp := env.now
      additionalInfo := [] }
  if action = "scroll" then
    { data with additionalInfo := [("scrollX", env.scrollX), ("scrollY", env.scrollY)] }
  else if action = "keydown" ∨ action = "keyup" ∨ action = "keypress" then
    { data with additionalInfo :=
        [("key", event.key), ("code", event.code), ("keyCode", event.keyCode)] }
  else if action = "click" ∨ action = "dblclick" ∨ action = "mousedown"
      ∨ action = "mouseup" then
    { data with additionalInfo :=
        [("button", event.button), ("clientX", event.clientX), ("clientY", event.clientY),
         ("screenX", event.screenX), ("screenY", event.screenY)] }
  else data

/-- The function `captureAction`; `result` is what `setStorage` answers, if it is reached. -/
def captureAction (toLowerCase : String → String) (w : World) (event : Event)
    (env : Ambient) (result : StorageResult) : World :=
  if getVariable w.store.isRecording false then
    let data := buildRecord toLowerCase event env
    let w := { w with console := w.console ++ [LogEntry.data data] }
    let last : Buffer := getVariable w.store.record_temp []
    let last := Buffer.set last data.timestamp data
    { w with
      store := w.store.setRecordTemp result last
      trace := w.trace ++ [Effect.setStorage "record_temp" (.buffer last) result.success] }
  else w

/-- One delivery of an event to `captureAction`, with what the environment answers. -/
structure Capture where
  event : Event
  env : Ambient
  result : StorageResult
  deriving DecidableEq, Repr

/-- Deliver a sequence of events, one after the other. -/
def captureAll (toLowerCase : String → String) (w : World) (cs : List Capture) : World :=
  cs.foldl (fun w c => captureAction toLowerCase w c.event c.env c.result) w

/-- The `additionalInfo` the design prescribes for an action and the values at hand: the
dispatch table of the action normaliser. -/
def additionalInfoFor (event : Event) (env : Ambient) : String → List (String × JSValue)
  | "scroll" => [("scrollX", env.scrollX), ("scrollY", env.scrollY)]
  | "keydown" | "keyup" | "keypress" =>
    [("key", event.key), ("code", event.code), ("keyCode", event.keyCode)]
  | "click" | "dblclick" | "mousedown" | "mouseup" =>
    [("button", event.button), ("clientX", event.clientX), ("clientY", event.clientY),
     ("screenX", event.screenX), ("screenY", event.screenY)]
  | _ => []

/-- The segments `getElementXPath` builds for the nodes strictly below `t` on the way to
`addr`, root side first, read off the child lists. -/
def segmentsBelow (toLowerCase : String → String) : List Nat → DomTree → List String
  | [], _ => []
  | i :: rest, t =>
    match t.childNodes[i]? with
    | none => []
    | some c =>
      (toLowerCase c.nodeName ++ pathIndex (sameNameCount c.nodeName (t.childNodes.take i)))
        :: segmentsBelow toLowerCase rest c

/-- Every segment preceded by a `/`, concatenated. -/
def joinSegs : List String → String
  | [] => ""
  | s :: rest => "/" ++ s ++ joinSegs rest

/-- The number written by a list of decimal digit characters. -/
def digitsValue (cs : List Char) : Nat :=
  cs.foldl (fun acc c => 10 * acc + (c.toNat - 48)) 0

/-- The buffer `B` after the records of the deliveries `cs` have been inserted, in order, each
under its timestamp. -/
def extendBuffer (toLowerCase : String → String) (B : Buffer) (cs : List Capture) : Buffer :=
  cs.foldl (fun b c => Buffer.set b c.env.now (buildRecord toLowerCase c.event c.env)) B

/-- The title decoration agrees with the persisted flag: while recording the title reads as
the marker followed by a text that does not itself start with the marker, and while stopped
the title reads as a non-empty text that does not start with the marker. -/
def titleInSync (w : World) : Bool :=
  if getVariable w.store.isRecording false then
    startsWith (documentTitle w) marker &&
      !(startsWith (String.mk ((documentTitle w).data.drop marker.data.length)) marker)
  else !(startsWith (documentTitle w) marker) && decide (documentTitle w ≠ "")

/-! ## Concrete data for the worked instances -/

/-- A successful storage answer. -/
def okResult : StorageResult := ⟨true, ""⟩

/-- A failed storage answer. -/
def failedResult : StorageResult := ⟨false, "write rejected"⟩

/-- A document node. -/
def sampleDocument : DomNode := .node 9 "#document" .null .null

/-- The root element of an HTML document, preceded by the doctype. -/
def sampleHtml : DomNode :=
  .node 1 "HTML" (.node 10 "html" .null sampleDocument) sampleDocument

/-- A `body` element, preceded by `head`. -/
def sampleBody : DomNode := .node 1 "BODY" (.node 1 "HEAD" .null sampleHtml) sampleHtml

/-- A `div` without a `value` property. -/
def sampleDiv : EventTarget := ⟨.str "DIV", .undefined, 1, "DIV", .null, sampleBody⟩

/-- An `input` whose value is the empty string. -/
def emptyInput : EventTarget := ⟨.str "INPUT", .str "", 1, "INPUT", sampleDiv.toNode, sampleBody⟩

/-- An `input` whose value is `abc`. -/
def filledInput : EventTarget :=
  ⟨.str "INPUT", .str "abc", 1, "INPUT", sampleDiv.toNode, sampleBody⟩

/-- An event of the given type on the given target, all other properties `undefined`. -/
def plainEvent (target : EventTarget) (type : String) : Event :=
  ⟨target, type, .undefined, .undefined, .undefined, .undefined, .undefined, .undefined,
    .undefined, .undefined⟩

/-- Scroll offsets 10 and 20 at a fixed instant. -/
def sampleAmbient : Ambient :=
  ⟨.num 10, .num 20, "https://example.org/", "2024-01-01T00:00:00.000Z"⟩

/-- The same window one millisecond later. -/
def laterAmbient : Ambient :=
  ⟨.num 10, .num 20, "https://example.org/", "2024-01-01T00:00:00.001Z"⟩

/-- A stopped session on a page titled `Page`, nothing persisted for the buffer. -/
def stoppedWorld : World := ⟨"RECORDER", ⟨some false, none⟩, "Page", [], 0, [], []⟩

/-- A recording session with a decorated title and one buffered record. -/
def recordingWorld : World :=
  ⟨"RECORDER",
    ⟨some true, some [("2024-01-01T00:00:00.000Z",
      buildRecord asciiLower (plainEvent sampleDiv "scroll") sampleAmbient)]⟩,
    "🔴 Recording - Page", [], 0, [], []⟩

/-- A document whose `body` holds two `a` elements that differ only in the case of their
names, as an HTML anchor and an anchor created in another namespace do. -/
def mixedCaseDocument : DomTree :=
  .mk 9 "#document" [.mk 1 "HTML" [.mk 1 "BODY" [.mk 1 "A" [], .mk 1 "a" []]]]

/-- An HTML document with a doctype and a list of three items, a text node between the first
two. -/
def listDocument : DomTree :=
  .mk 9 "#document" [.mk 10 "html" [],
    .mk 1 "HTML" [.mk 1 "HEAD" [],
      .mk 1 "BODY" [.mk 1 "UL" [.mk 1 "LI" [], .mk 3 "#text" [], .mk 1 "LI" [],
        .mk 1 "LI" []]]]]

/-! ## Buffer lemmas -/

theorem Buffer.get?_set_self (b : Buffer) (key : String) (r : ActionRecord) :
    Buffer.get? (Buffer.set b key r) key = some r := by
  induction b with
  | nil => simp [Buffer.set, Buffer.get?]
  | cons p rest ih =>
    obtain ⟨k, v⟩ := p
    by_cases h : k = key
    · simp [Buffer.set, Buffer.get?, h]
    · simp [Buffer.set, Buffer.get?, h, ih]

theorem Buffer.get?_set_other (b : Buffer) (key other : String) (r : ActionRecord)
    (hne : other ≠ key) :
    Buffer.get? (Buffer.set b key r) other = Buffer.get? b other := by
  induction b with
  | nil => simp [Buffer.set, Buffer.get?, Ne.symm hne]
  | cons p rest ih =>
    obtain ⟨k, v⟩ := p
    by_cases h : k = key
    · subst h
      simp [Buffer.set, Buffer.get?, Ne.symm hne]
    · by_cases h2 : k = other
      · subst h2
        simp [Buffer.set, Buffer.get?, h]
      · simp [Buffer.set, Buffer.get?, h, h2, ih]

theorem Buffer.length_set_of_hasKey (b : Buffer) (key : String) (r : ActionRecord)
    (h : Buffer.hasKey b key = true) : (Buffer.set b key r).length = b.length := by
  induction b with
  | nil => simp [Buffer.hasKey, Buffer.get?] at h
  | cons p rest ih =>
    obtain ⟨k, v⟩ := p
    by_cases hk : k = key
    · simp [Buffer.set, hk]
    · have h2 : Buffer.hasKey rest key = true := by
        simpa [Buffer.hasKey, Buffer.get?, hk] using h
      simp [Buffer.set, hk, ih h2]

theorem Buffer.length_set_of_not_hasKey (b : Buffer) (key : String) (r : ActionRecord)
    (h : Buffer.hasKey b key = false) : (Buffer.set b key r).length = b.length + 1 := by
  induction b with
  | nil => simp [Buffer.set]
  | cons p rest ih =>
    obtain ⟨k, v⟩ := p
    by_cases hk : k = key
    · simp [Buffer.hasKey, Buffer.get?, hk] at h
    · have h2 : Buffer.hasKey rest key = false := by
        simpa [Buffer.hasKey, Buffer.get?, hk] using h
      simp [Buffer.set, hk, ih h2]

theorem Buffer.keys_set (b : Buffer) (key : String) (r : ActionRecord) :
    ∀ k, k ∈ (Buffer.set b key r).map Prod.fst ↔ k = key ∨ k ∈ b.map Prod.fst := by
  induction b with
  | nil => intro k; simp [Buffer.set]
  | cons p rest ih =>
    obtain ⟨k0, v⟩ := p
    intro k
    by_cases hk : k0 = key
    · subst hk
      simp [Buffer.set]
    · simp only [Buffer.set, hk, if_false, List.map_cons, List.mem_cons, ih k]
      tauto

theorem Buffer.keys_nodup_set (b : Buffer) (key : String) (r : ActionRecord)
    (h : (b.map Prod.fst).Nodup) : ((Buffer.set b key r).map Prod.fst).Nodup := by
  induction b with
  | nil => simp [Buffer.set]
  | cons p rest ih =>
    obtain ⟨k0, v⟩ := p
    simp only [List.map_cons, List.nodup_cons] at h
    by_cases hk : k0 = key
    · simp only [Buffer.set, hk, if_true, List.map_cons, List.nodup_cons]
      exact ⟨hk ▸ h.1, h.2⟩
    · simp only [Buffer.set, hk, if_false, List.map_cons, List.nodup_cons]
      refine ⟨?_, ih h.2⟩
      intro hmem
      rcases (Buffer.keys_set rest key r k0).1 hmem with h1 | h1
      · exact hk h1
      · exact h.1 h1

/-! ## Capture while stopped, and insertion while recording -/

/-- C3: whenever the persisted `isRecording` flag is false or absent, `captureAction` returns
the world it was given, for every event: the buffer `record_temp`, the rest of the store and
everything else are untouched. -/
theorem captureAction_noop_when_stopped (toLowerCase : String → String) (w : World)
    (event : Event) (env : Ambient) (result : StorageResult)
    (h : w.store.isRecording = some false ∨ w.store.isRecording = none) :
    captureAction toLowerCase w event env result = w := by
  rcases h with h | h <;> simp [captureAction, getVariable, h]

theorem captureAction_noop_when_stopped_witness :
    (stoppedWorld.store.isRecording = some false ∨ stoppedWorld.store.isRecording = none) ∧
    captureAction asciiLower stoppedWorld (plainEvent filledInput "click") sampleAmbient
      okResult = stoppedWorld :=
  ⟨Or.inl rfl,
    captureAction_noop_when_stopped asciiLower stoppedWorld (plainEvent filledInput "click")
      sampleAmbient okResult (Or.inl rfl)⟩

/-- C10: while the persisted flag is true and the write succeeds, `captureAction` persists a
buffer that maps the record's timestamp to the new record and agrees with the previous
buffer on every other key; its length is unchanged when the timestamp was already a key
and grows by one otherwise, and distinct keys stay distinct. -/
theorem captureAction_inserts_by_timestamp (toLowerCase : String → String) (w : World)
    (event : Event) (env : Ambient) (result : StorageResult)
    (hrec : w.store.isRecording = some true) (hok : result.success = true) :
    ∃ after : Buffer,
      (captureAction toLowerCase w event env result).store.record_temp = some after ∧
      (buildRecord toLowerCase event env).timestamp = env.now ∧
      Buffer.get? after env.now = some (buildRecord toLowerCase event env) ∧
      (∀ k, k ≠ env.now →
        Buffer.get? after k = Buffer.get? (getVariable w.store.record_temp []) k) ∧
      (Buffer.hasKey (getVariable w.store.record_temp []) env.now = true →
        after.length = (getVariable w.store.record_temp []).length) ∧
      (Buffer.hasKey (getVariable w.store.record_temp []) env.now = false →
        after.length = (getVariable w.store.record_temp []).length + 1) ∧
      (((getVariable w.store.record_temp []).map Prod.fst).Nodup →
        (after.map Prod.fst).Nodup) := by
  have hts : (buildRecord toLowerCase event env).timestamp = env.now := by
    simp only [buildRecord]
    split_ifs <;> rfl
  refine ⟨Buffer.set (getVariable w.store.record_temp []) env.now
    (buildRecord toLowerCase event env), ?_, hts, ?_, ?_, ?_, ?_, ?_⟩
  · simp [captureAction, getVariable, hrec, Store.setRecordTemp, hok, hts]
  · exact Buffer.get?_set_self _ _ _
  · intro k hk
    exact Buffer.get?_set_other _ _ _ _ hk
  · exact Buffer.length_set_of_hasKey _ _ _
  · exact Buffer.length_set_of_not_hasKey _ _ _
  · exact Buffer.keys_nodup_set _ _ _

theorem captureAction_inserts_by_timestamp_witness :
    recordingWorld.store.isRecording = some true ∧ okResult.success = true ∧
    ∃ after : Buffer,
      (captureAction asciiLower recordingWorld (plainEvent filledInput "click") sampleAmbient
        okResult).store.record_temp = some after ∧ after.length = 1 := by
  obtain ⟨after, h1, _, _, _, h5, _, _⟩ :=
    captureAction_inserts_by_timestamp asciiLower recordingWorld
      (plainEvent filledInput "click") sampleAmbient okResult rfl rfl
  exact ⟨rfl, rfl, after, h1, h5 (by decide)⟩

/-! ## The action normaliser -/

/-- C7: the `additionalInfo` of the record built for an event is the entry of the dispatch
table for its action (scroll offsets for `scroll`, key data for the three keyboard actions,
pointer data for the four pointer actions, the empty object for anything else), the value is
`null` for a target without a value, and, while recording with a successful write, that
record is the one persisted under its timestamp. -/
theorem additionalInfo_fixed_by_action (toLowerCase : String → String) (w : World)
    (event : Event) (env : Ambient) (result : StorageResult)
    (hrec : w.store.isRecording = some true) (hok : result.success = true) :
    (buildRecord toLowerCase event env).additionalInfo
      = additionalInfoFor event env event.type ∧
    (buildRecord toLowerCase event env).action = event.type ∧
    (event.target.value = JSValue.undefined →
      (buildRecord toLowerCase event env).value = JSValue.null) ∧
    (captureAction toLowerCase w event env result).store.record_temp.bind
      (fun b => Buffer.get? b env.now) = some (buildRecord toLowerCase event env) := by
  have hts : (buildRecord toLowerCase event env).timestamp = env.now := by
    simp only [buildRecord]
    split_ifs <;> rfl
  refine ⟨?_, ?_, ?_, ?_⟩
  · simp only [buildRecord, additionalInfoFor]
    split_ifs with h1 h2 h3
    · simp [h1]
    · rcases h2 with h2 | h2 | h2 <;> simp [h2]
    · rcases h3 with h3 | h3 | h3 | h3 <;> simp [h3]
    · simp only [not_or] at h2 h3
      split <;> simp_all
  · simp only [buildRecord]
    split_ifs <;> rfl
  · intro hv
    simp only [buildRecord, hv, JSValue.or, JSValue.truthy]
    split_ifs <;> first | rfl | contradiction
  · simp [captureAction, getVariable, hrec, Store.setRecordTemp, hok, hts,
      Buffer.get?_set_self]

theorem additionalInfo_fixed_by_action_witness :
    (buildRecord asciiLower (plainEvent sampleDiv "scroll") sampleAmbient).additionalInfo
      = [("scrollX", JSValue.num 10), ("scrollY", JSValue.num 20)] ∧
    (buildRecord asciiLower (plainEvent sampleDiv "scroll") sampleAmbient).value
      = JSValue.null ∧
    (buildRecord asciiLower (plainEvent sampleDiv "mouseover") sampleAmbient).additionalInfo
      = [] := by
  have h1 := additionalInfo_fixed_by_action asciiLower recordingWorld
    (plainEvent sampleDiv "scroll") sampleAmbient okResult rfl rfl
  have h2 := additionalInfo_fixed_by_action asciiLower recordingWorld
    (plainEvent sampleDiv "mouseover") sampleAmbient okResult rfl rfl
  exact ⟨h1.1.trans (by decide), h1.2.2.1 rfl, h2.1.trans (by decide)⟩

/-- C8, the claim fails: an `input` whose current value is the empty string is recorded with
value `null`, not with the empty string. -/
theorem value_empty_string_recorded_as_null :
    emptyInput.value = JSValue.str "" ∧
    (buildRecord asciiLower (plainEvent emptyInput "input") sampleAmbient).value
      = JSValue.null ∧
    (buildRecord asciiLower (plainEvent emptyInput "input") sampleAmbient).value
      ≠ emptyInput.value := by
  decide

/-- C8, amended: the record's `value` is the target's value when that is a non-empty
string, and `null` when the target has no value or its value is the empty string. -/
theorem value_is_target_value_or_null (toLowerCase : String → String) (event : Event)
    (env : Ambient) (v : String) :
    (v ≠ "" → event.target.value = JSValue.str v →
      (buildRecord toLowerCase event env).value = JSValue.str v) ∧
    (event.target.value = JSValue.undefined ∨ event.target.value = JSValue.str "" →
      (buildRecord toLowerCase event env).value = JSValue.null) := by
  constructor
  · intro hv h
    simp only [buildRecord, h, JSValue.or, JSValue.truthy]
    split_ifs <;> simp_all
  · intro h
    rcases h with h | h <;>
    · simp only [buildRecord, h, JSValue.or, JSValue.truthy]
      split_ifs <;> simp_all

theorem value_is_target_value_or_null_witness :
    (buildRecord asciiLower (plainEvent filledInput "input") sampleAmbient).value
      = JSValue.str "abc" ∧
    (buildRecord asciiLower (plainEvent sampleDiv "click") sampleAmbient).value
      = JSValue.null :=
  ⟨(value_is_target_value_or_null asciiLower (plainEvent filledInput "input") sampleAmbient
      "abc").1 (by decide) rfl,
    (value_is_target_value_or_null asciiLower (plainEvent sampleDiv "click") sampleAmbient
      "").2 (Or.inl rfl)⟩

/-! ## Start, stop and toggle -/

/-- C9: when the write of the recording flag fails, `startRecording` and `stopRecording`
leave the store (flag and buffer), the page title, the number of prompts shown and the
emitted events as they were; the functions are total, so nothing is raised. -/
theorem flag_write_failure_changes_nothing (w : World) (result : StorageResult)
    (recordingTitle : Option String) (clearResult : StorageResult)
    (hfail : result.success = false) :
    ((startRecording w result).store = w.store ∧
      (startRecording w result).title = w.title ∧
      (startRecording w result).prompts = w.prompts ∧
      (startRecording w result).emitted = w.emitted) ∧
    ((stopRecording w result recordingTitle clearResult).store = w.store ∧
      (stopRecording w result recordingTitle clearResult).title = w.title ∧
      (stopRecording w result recordingTitle clearResult).prompts = w.prompts ∧
      (stopRecording w result recordingTitle clearResult).emitted = w.emitted) := by
  simp [startRecording, stopRecording, Store.setIsRecording, hfail]

theorem flag_write_failure_changes_nothing_witness :
    failedResult.success = false ∧
    (startRecording stoppedWorld failedResult).store = stoppedWorld.store ∧
    (stopRecording recordingWorld failedResult (some "foo") okResult).store
      = recordingWorld.store ∧
    (stopRecording recordingWorld failedResult (some "foo") okResult).emitted = [] :=
  ⟨rfl,
    (flag_write_failure_changes_nothing stoppedWorld failedResult none okResult rfl).1.1,
    (flag_write_failure_changes_nothing recordingWorld failedResult (some "foo") okResult
      rfl).2.1,
    (flag_write_failure_changes_nothing recordingWorld failedResult (some "foo") okResult
      rfl).2.2.2.2⟩

/-- C4, the claim fails: the flag write succeeds and the prompt answers `foo`, but the write
that clears the buffer is rejected; the event is emitted and the persisted buffer is still
the non-empty buffer it was. -/
theorem stop_keeps_buffer_when_clear_write_fails :
    okResult.success = true ∧
    (stopRecording recordingWorld okResult (some "foo") failedResult).emitted.length = 1 ∧
    (stopRecording recordingWorld okResult (some "foo") failedResult).store.record_temp
      = recordingWorld.store.record_temp ∧
    (stopRecording recordingWorld okResult (some "foo") failedResult).store.record_temp
      ≠ some [] := by
  decide

/-- C4, amended: when the flag write succeeds, the prompt answers a non-empty name `n` and the
write that clears the buffer succeeds too, `stopRecording` adds exactly one emitted event,
`{name: n, history: B}` with `B` the buffer persisted before the call, and afterwards the
persisted buffer is empty and the flag is false. The calls are made in this order: the write
of the flag, the prompt, the emit, and only then the write of the empty buffer. -/
theorem stop_with_name_emits_then_clears (w : World) (result clearResult : StorageResult)
    (n : String) (hflag : result.success = true) (hname : n ≠ "")
    (hclear : clearResult.success = true) :
    (stopRecording w result (some n) clearResult).emitted
      = w.emitted ++ [Emit.mk (w.MODULE_NAME ++ ".make:script") n
          (getVariable w.store.record_temp [])] ∧
    (stopRecording w result (some n) clearResult).store.record_temp = some [] ∧
    (stopRecording w result (some n) clearResult).store.isRecording = some false ∧
    (stopRecording w result (some n) clearResult).prompts = w.prompts + 1 ∧
    (stopRecording w result (some n) clearResult).trace
      = w.trace ++
        [Effect.setStorage "isRecording" (StoredValue.flag false) true,
         Effect.prompt,
         Effect.emit (Emit.mk (w.MODULE_NAME ++ ".make:script") n
           (getVariable w.store.record_temp [])),
         Effect.setStorage "record_temp" (StoredValue.buffer []) true] := by
  simp [stopRecording, Store.setIsRecording, Store.setRecordTemp, hflag, hname, hclear,
    getVariable]

theorem stop_with_name_emits_then_clears_witness :
    okResult.success = true ∧ "foo" ≠ "" ∧
    (stopRecording recordingWorld okResult (some "foo") okResult).emitted
      = [Emit.mk "RECORDER.make:script" "foo" (recordingWorld.store.record_temp.getD [])] ∧
    (stopRecording recordingWorld okResult (some "foo") okResult).store.record_temp
      = some [] ∧
    (stopRecording recordingWorld okResult (some "foo") okResult).trace
      = [Effect.setStorage "isRecording" (StoredValue.flag false) true,
         Effect.prompt,
         Effect.emit (Emit.mk "RECORDER.make:script" "foo"
           (recordingWorld.store.record_temp.getD [])),
         Effect.setStorage "record_temp" (StoredValue.buffer []) true] :=
  ⟨rfl, by decide,
    (stop_with_name_emits_then_clears recordingWorld okResult okResult "foo" rfl (by decide)
      rfl).1,
    (stop_with_name_emits_then_clears recordingWorld okResult okResult "foo" rfl (by decide)
      rfl).2.1,
    (stop_with_name_emits_then_clears recordingWorld okResult okResult "foo" rfl (by decide)
      rfl).2.2.2.2⟩

/-! ## A whole session: start, captures, cancelled stop -/

theorem buildRecord_timestamp (toLowerCase : String → String) (event : Event)
    (env : Ambient) : (buildRecord toLowerCase event env).timestamp = env.now := by
  simp only [buildRecord]
  split_ifs <;> rfl

theorem captureAction_while_recording (toLowerCase : String → String) (w : World)
    (event : Event) (env : Ambient) (result : StorageResult)
    (hrec : w.store.isRecording = some true) (hok : result.success = true) :
    (captureAction toLowerCase w event env result).store
      = ⟨some true, some (Buffer.set (getVariable w.store.record_temp []) env.now
          (buildRecord toLowerCase event env))⟩ ∧
    (captureAction toLowerCase w event env result).emitted = w.emitted ∧
    (captureAction toLowerCase w event env result).title = w.title ∧
    (captureAction toLowerCase w event env result).prompts = w.prompts := by
  simp [captureAction, getVariable, hrec, Store.setRecordTemp, hok, buildRecord_timestamp]

theorem captureAll_while_recording (toLowerCase : String → String) (cs : List Capture) :
    ∀ w : World, w.store.isRecording = some true →
      (∀ c ∈ cs, c.result.success = true) →
      (captureAll toLowerCase w cs).store.isRecording = some true ∧
      (captureAll toLowerCase w cs).emitted = w.emitted ∧
      (captureAll toLowerCase w cs).title = w.title ∧
      getVariable (captureAll toLowerCase w cs).store.record_temp []
        = extendBuffer toLowerCase (getVariable w.store.record_temp []) cs ∧
      (∀ B0, w.store.record_temp = some B0 →
        (captureAll toLowerCase w cs).store.record_temp
          = some (extendBuffer toLowerCase B0 cs)) := by
  induction cs with
  | nil =>
    intro w hrec _
    simp [captureAll, extendBuffer, hrec]
  | cons c rest ih =>
    intro w hrec hok
    have hc : c.result.success = true := hok c (List.mem_cons_self _ _)
    obtain ⟨hstore, hem, htitle, _⟩ :=
      captureAction_while_recording toLowerCase w c.event c.env c.result hrec hc
    have hrec1 : (captureAction toLowerCase w c.event c.env c.result).store.isRecording
        = some true := by rw [hstore]
    have hbuf : (captureAction toLowerCase w c.event c.env c.result).store.record_temp
        = some (Buffer.set (getVariable w.store.record_temp []) c.env.now
            (buildRecord toLowerCase c.event c.env)) := by rw [hstore]
    obtain ⟨i1, i2, i3, i4, i5⟩ :=
      ih (captureAction toLowerCase w c.event c.env c.result) hrec1
        (fun d hd => hok d (List.mem_cons_of_mem _ hd))
    have hstep : captureAll toLowerCase w (c :: rest)
        = captureAll toLowerCase (captureAction toLowerCase w c.event c.env c.result)
            rest := rfl
    have hext : ∀ B, extendBuffer toLowerCase B (c :: rest)
        = extendBuffer toLowerCase
            (Buffer.set B c.env.now (buildRecord toLowerCase c.event c.env)) rest :=
      fun _ => rfl
    rw [hstep]
    refine ⟨i1, i2.trans hem, i3.trans htitle, ?_, ?_⟩
    · rw [i4, hbuf, hext]
      rfl
    · intro B0 hB0
      rw [i5 _ hbuf, hext, hB0]
      rfl

/-- C5: start, then any sequence of captures, then a stop whose prompt is cancelled
(`undefined` or the empty string), all writes succeeding: the flag ends false, nothing is
emitted, and the persisted buffer is the initial buffer extended with the records of the
captures, each under its timestamp. -/
theorem start_capture_cancelled_stop (toLowerCase : String → String) (w : World)
    (cs : List Capture) (startResult stopResult clearResult : StorageResult)
    (recordingTitle : Option String)
    (hstart : startResult.success = true) (hwrites : ∀ c ∈ cs, c.result.success = true)
    (hstop : stopResult.success = true)
    (hcancel : recordingTitle = none ∨ recordingTitle = some "") :
    (stopRecording (captureAll toLowerCase (startRecording w startResult) cs) stopResult
      recordingTitle clearResult).store.isRecording = some false ∧
    (stopRecording (captureAll toLowerCase (startRecording w startResult) cs) stopResult
      recordingTitle clearResult).emitted = w.emitted ∧
    getVariable (stopRecording (captureAll toLowerCase (startRecording w startResult) cs)
      stopResult recordingTitle clearResult).store.record_temp []
      = extendBuffer toLowerCase (getVariable w.store.record_temp []) cs ∧
    (∀ B0, w.store.record_temp = some B0 →
      (stopRecording (captureAll toLowerCase (startRecording w startResult) cs) stopResult
        recordingTitle clearResult).store.record_temp
        = some (extendBuffer toLowerCase B0 cs)) := by
  have hs_flag : (startRecording w startResult).store.isRecording = some true := by
    simp only [startRecording, Store.setIsRecording, hstart, if_true]
    split_ifs <;> rfl
  have hs_buf : (startRecording w startResult).store.record_temp = w.store.record_temp := by
    simp only [startRecording, Store.setIsRecording, hstart, if_true]
    split_ifs <;> rfl
  have hs_em : (startRecording w startResult).emitted = w.emitted := by
    simp only [startRecording, Store.setIsRecording, hstart, if_true]
    split_ifs <;> rfl
  obtain ⟨_, c2, _, c4, c5⟩ :=
    captureAll_while_recording toLowerCase cs (startRecording w startResult) hs_flag hwrites
  have hstopped : ∀ v : World,
      (stopRecording v stopResult recordingTitle clearResult).store
        = ⟨some false, v.store.record_temp⟩ ∧
      (stopRecording v stopResult recordingTitle clearResult).emitted = v.emitted := by
    intro v
    rcases hcancel with h | h <;>
      simp [stopRecording, Store.setIsRecording, hstop, h]
  obtain ⟨t1, t2⟩ := hstopped (captureAll toLowerCase (startRecording w startResult) cs)
  rw [t1, t2]
  refine ⟨rfl, c2.trans hs_em, ?_, ?_⟩
  · show getVariable (captureAll toLowerCase (startRecording w startResult) cs).store.record_temp
      [] = _
    rw [c4, hs_buf]
  · intro B0 hB0
    exact c5 B0 (hs_buf.trans hB0)

theorem start_capture_cancelled_stop_witness :
    (stopRecording (captureAll asciiLower (startRecording stoppedWorld okResult)
      [⟨plainEvent filledInput "click", sampleAmbient, okResult⟩,
       ⟨plainEvent sampleDiv "scroll", laterAmbient, okResult⟩]) okResult none
      okResult).store.isRecording = some false ∧
    (getVariable (stopRecording (captureAll asciiLower (startRecording stoppedWorld okResult)
      [⟨plainEvent filledInput "click", sampleAmbient, okResult⟩,
       ⟨plainEvent sampleDiv "scroll", laterAmbient, okResult⟩]) okResult none
      okResult).store.record_temp []).length = 2 := by
  have h := start_capture_cancelled_stop asciiLower stoppedWorld
    [⟨plainEvent filledInput "click", sampleAmbient, okResult⟩,
     ⟨plainEvent sampleDiv "scroll", laterAmbient, okResult⟩] okResult okResult okResult none
    rfl (by decide) rfl (Or.inl rfl)
  refine ⟨h.1, ?_⟩
  rw [h.2.2.1]
  decide

/-! ## Reading the title back -/

theorem collapseFrom_word_of_cleanTail :
    ∀ l : List Char, cleanTail l = true → collapseFrom .word l = l := by
  intro l
  induction l with
  | nil => intro _; rfl
  | cons c cs ih =>
    intro h
    by_cases hc : isAsciiWhitespace c = true
    · simp only [cleanTail, hc, if_true, Bool.and_eq_true, beq_iff_eq] at h
      obtain ⟨⟨hsp, hstart⟩, htail⟩ := h
      cases cs with
      | nil => simp [startsNonWs] at hstart
      | cons d ds =>
        have hd : isAsciiWhitespace d = false := by
          simpa [startsNonWs] using hstart
        have hrec := ih htail
        simp only [collapseFrom, hd, Bool.false_eq_true, if_false, List.cons.injEq,
          true_and] at hrec
        subst hsp
        simp only [collapseFrom, hc, if_true, hd, Bool.false_eq_true, if_false, hrec]
    · have hc0 : isAsciiWhitespace c = false := by simpa using hc
      simp only [cleanTail, hc0, Bool.false_eq_true, if_false] at h
      simp only [collapseFrom, hc0, Bool.false_eq_true, if_false, ih h]

theorem collapseFrom_start_of_clean (l : List Char)
    (h : l = [] ∨ (startsNonWs l = true ∧ cleanTail l = true)) :
    collapseFrom .start l = l := by
  rcases h with h | ⟨h1, h2⟩
  · subst h; rfl
  · cases l with
    | nil => rfl
    | cons d ds =>
      have hd : isAsciiWhitespace d = false := by simpa [startsNonWs] using h1
      simp only [cleanTail, hd, Bool.false_eq_true, if_false] at h2
      simp only [collapseFrom, hd, Bool.false_eq_true, if_false,
        collapseFrom_word_of_cleanTail ds h2]

theorem cleanTail_collapseFrom :
    ∀ l : List Char, cleanTail (collapseFrom .word l) = true ∧
      cleanTail (collapseFrom .gap l) = true ∧
      (collapseFrom .start l = [] ∨
        (startsNonWs (collapseFrom .start l) = true ∧
          cleanTail (collapseFrom .start l) = true)) := by
  intro l
  induction l with
  | nil => exact ⟨rfl, rfl, Or.inl rfl⟩
  | cons c cs ih =>
    obtain ⟨iw, ig, is⟩ := ih
    by_cases hc : isAsciiWhitespace c = true
    · simp only [collapseFrom, hc, if_true]
      exact ⟨ig, ig, is⟩
    · have hc0 : isAsciiWhitespace c = false := by simpa using hc
      simp only [collapseFrom, hc0, Bool.false_eq_true, if_false]
      refine ⟨?_, ?_, Or.inr ⟨?_, ?_⟩⟩
      · simp only [cleanTail, hc0, Bool.false_eq_true, if_false, iw]
      · have hsp : isAsciiWhitespace ' ' = true := by decide
        simp only [cleanTail, hsp, if_true, startsNonWs, hc0, Bool.false_eq_true, if_false, iw,
          beq_self_eq_true, Bool.not_false, Bool.and_self]
      · simp [startsNonWs, hc0]
      · simp only [cleanTail, hc0, Bool.false_eq_true, if_false, iw]

theorem cleanTail_cons (c : Char) (l : List Char) :
    cleanTail (c :: l)
      = if isAsciiWhitespace c then c == ' ' && startsNonWs l && cleanTail l
        else cleanTail l :=
  rfl

theorem cleanTail_append_space :
    ∀ a b : List Char, cleanTail a = true → startsNonWs b = true → cleanTail b = true →
      cleanTail (a ++ ' ' :: b) = true := by
  intro a
  induction a with
  | nil =>
    intro b _ hb1 hb2
    have hsp : isAsciiWhitespace ' ' = true := by decide
    simp [cleanTail, hsp, hb1, hb2]
  | cons c cs ih =>
    intro b ha hb1 hb2
    by_cases hc : isAsciiWhitespace c = true
    · simp only [cleanTail, hc, if_true, Bool.and_eq_true, beq_iff_eq] at ha
      obtain ⟨⟨hsp, hstart⟩, htail⟩ := ha
      cases cs with
      | nil => simp [startsNonWs] at hstart
      | cons d ds =>
        have hrec := ih b htail hb1 hb2
        simp only [List.cons_append] at hrec
        have hd : startsNonWs (d :: (ds ++ ' ' :: b)) = true := by
          simpa [startsNonWs] using hstart
        subst hsp
        show cleanTail (' ' :: (d :: (ds ++ ' ' :: b))) = true
        rw [cleanTail_cons, if_pos hc, hd, hrec]
        rfl
    · have hc0 : isAsciiWhitespace c = false := by simpa using hc
      simp only [cleanTail, hc0, Bool.false_eq_true, if_false] at ha
      simp only [List.cons_append, cleanTail, hc0, Bool.false_eq_true, if_false]
      exact ih b ha hb1 hb2

theorem cleanTail_after_space :
    ∀ a b : List Char, cleanTail (a ++ ' ' :: b) = true →
      startsNonWs b = true ∧ cleanTail b = true := by
  intro a
  induction a with
  | nil =>
    intro b h
    have hsp : isAsciiWhitespace ' ' = true := by decide
    simpa [cleanTail, hsp] using h
  | cons c cs ih =>
    intro b h
    by_cases hc : isAsciiWhitespace c = true
    · simp only [List.cons_append, cleanTail, hc, if_true, Bool.and_eq_true] at h
      exact ih b h.2
    · have hc0 : isAsciiWhitespace c = false := by simpa using hc
      simp only [List.cons_append, cleanTail, hc0, Bool.false_eq_true, if_false] at h
      exact ih b h

theorem marker_data : marker.data = markerBody ++ [' '] := by
  decide

theorem startsNonWs_append (a b : List Char) (h : startsNonWs a = true) :
    startsNonWs (a ++ b) = true := by
  cases a with
  | nil => simp [startsNonWs] at h
  | cons c cs => simpa [startsNonWs] using h

theorem documentTitle_clean (w : World) :
    (documentTitle w).data = [] ∨
      (startsNonWs (documentTitle w).data = true ∧ cleanTail (documentTitle w).data = true) :=
  (cleanTail_collapseFrom w.title.data).2.2

theorem collapse_of_read (w : World) :
    String.mk (collapseFrom .start (documentTitle w).data) = documentTitle w := by
  rw [collapseFrom_start_of_clean _ (documentTitle_clean w)]

theorem collapse_marker_append (t : String) (h1 : startsNonWs t.data = true)
    (h2 : cleanTail t.data = true) :
    String.mk (collapseFrom .start (marker ++ t).data) = marker ++ t := by
  have hd : (marker ++ t).data = markerBody ++ ' ' :: t.data := by
    rw [String.data_append, marker_data, List.append_assoc]
    rfl
  have hclean : cleanTail ((marker ++ t).data) = true := by
    rw [hd]
    exact cleanTail_append_space markerBody t.data (by decide) h1 h2
  have hstart : startsNonWs ((marker ++ t).data) = true := by
    rw [hd]
    exact startsNonWs_append _ _ (by decide)
  rw [collapseFrom_start_of_clean _ (Or.inr ⟨hstart, hclean⟩)]

theorem clean_after_marker (t rest : String) (ht : t = marker ++ rest)
    (hclean : t.data = [] ∨ (startsNonWs t.data = true ∧ cleanTail t.data = true)) :
    startsNonWs rest.data = true ∧ cleanTail rest.data = true := by
  have hd : t.data = markerBody ++ ' ' :: rest.data := by
    rw [ht, String.data_append, marker_data, List.append_assoc]
    rfl
  rcases hclean with h | ⟨_, h⟩
  · rw [hd] at h
    exact absurd h (by simp)
  · rw [hd] at h
    exact cleanTail_after_space markerBody rest.data h

/-! ## Toggling twice -/

theorem replaceFirstChars_at_start (pat rep t : List Char) :
    replaceFirstChars pat rep (pat ++ t) = rep ++ t := by
  have hp : pat.isPrefixOf (pat ++ t) = true := by
    rw [List.isPrefixOf_iff_prefix]
    exact List.prefix_append pat t
  cases h : pat ++ t with
  | nil =>
    obtain ⟨h1, h2⟩ := List.append_eq_nil.1 h
    subst h1
    subst h2
    simp [replaceFirstChars]
  | cons c cs =>
    rw [h] at hp
    simp only [replaceFirstChars, hp, if_true]
    rw [← h, List.drop_left]

theorem replace_marker_append (t : String) : replace (marker ++ t) marker "" = t := by
  simp only [replace, String.data_append, replaceFirstChars_at_start]
  rfl

theorem startsWith_eq_append (s p : String) (h : startsWith s p = true) :
    s = p ++ String.mk (s.data.drop p.data.length) := by
  simp only [startsWith, List.isPrefixOf_iff_prefix] at h
  obtain ⟨r, hr⟩ := h
  apply String.ext
  rw [String.data_append, ← hr, List.drop_left]

theorem startRecording_success (w : World) (result : StorageResult)
    (hok : result.success = true) :
    (startRecording w result).store.isRecording = some true ∧
    (startRecording w result).title
      = if startsWith (documentTitle w) marker then w.title
        else marker ++ documentTitle w := by
  simp only [startRecording, Store.setIsRecording, hok, if_true, documentTitle]
  split_ifs <;> simp_all

theorem stopRecording_success (w : World) (result clearResult : StorageResult)
    (recordingTitle : Option String) (hok : result.success = true) :
    (stopRecording w result recordingTitle clearResult).store.isRecording = some false ∧
    (stopRecording w result recordingTitle clearResult).title
      = replace (documentTitle w) marker "" := by
  cases recordingTitle with
  | none => simp [stopRecording, Store.setIsRecording, hok, documentTitle]
  | some n =>
    by_cases hn : n = ""
    · simp [stopRecording, Store.setIsRecording, hok, hn, documentTitle]
    · simp only [stopRecording, Store.setIsRecording, Store.setRecordTemp, hok, if_true, hn,
        ne_eq, not_false_eq_true, documentTitle]
      split_ifs <;> simp

/-- C6, the claim fails: with the flag true and an undecorated title, two toggles (all writes
succeeding, prompt cancelled) end with a decorated title; with the flag true and a title that
carries the marker twice they end with the marker once; with the flag false and a decorated
title they end undecorated; and with the flag false and an empty title the marker is read
back without its trailing space, is not removed, and stays as the title. -/
theorem toggle_twice_changes_title :
    documentTitle (toggleRecording (toggleRecording
        ⟨"RECORDER", ⟨some true, none⟩, "Page", [], 0, [], []⟩
        okResult none okResult) okResult none okResult) = "🔴 Recording - Page" ∧
    documentTitle (toggleRecording (toggleRecording
        ⟨"RECORDER", ⟨some true, none⟩, "🔴 Recording - 🔴 Recording - Page", [], 0, [], []⟩
        okResult none okResult) okResult none okResult) = "🔴 Recording - Page" ∧
    documentTitle (toggleRecording (toggleRecording
        ⟨"RECORDER", ⟨some false, none⟩, "🔴 Recording - Page", [], 0, [], []⟩
        okResult none okResult) okResult none okResult) = "Page" ∧
    documentTitle (toggleRecording (toggleRecording
        ⟨"RECORDER", ⟨some false, none⟩, "", [], 0, [], []⟩
        okResult none okResult) okResult none okResult) = "🔴 Recording -" := by
  decide

/-- C6, amended: when the title decoration agrees with the flag (`titleInSync`: while stopped
the title reads as a non-empty text without the marker in front, while recording it reads as
the marker followed by a text without the marker in front) and both flag writes succeed, two
toggles in a row, whatever the prompt and the clearing write answer, bring the flag back to
the value it was read as and `document.title` back to the text it read as before. -/
theorem toggle_twice_restores (w : World) (r1 r2 c1 c2 : StorageResult)
    (t1 t2 : Option String) (hsync : titleInSync w = true)
    (h1 : r1.success = true) (h2 : r2.success = true) :
    (toggleRecording (toggleRecording w r1 t1 c1) r2 t2 c2).store.isRecording
      = some (getVariable w.store.isRecording false) ∧
    documentTitle (toggleRecording (toggleRecording w r1 t1 c1) r2 t2 c2)
      = documentTitle w := by
  by_cases hflag : getVariable w.store.isRecording false = true
  · -- recording: stop, then start
    simp only [titleInSync, hflag, if_true, Bool.and_eq_true, Bool.not_eq_true'] at hsync
    obtain ⟨hpre, hrest⟩ := hsync
    have htitle := startsWith_eq_append (documentTitle w) marker hpre
    obtain ⟨hr1, hr2⟩ := clean_after_marker _ _ htitle (documentTitle_clean w)
    obtain ⟨s1, s2⟩ := stopRecording_success w r1 c1 t1 h1
    have hfirst : toggleRecording w r1 t1 c1 = stopRecording w r1 t1 c1 := by
      simp [toggleRecording, hflag]
    have hread : getVariable (stopRecording w r1 t1 c1).store.isRecording false = false := by
      rw [s1]; rfl
    have hsecond : toggleRecording (stopRecording w r1 t1 c1) r2 t2 c2
        = startRecording (stopRecording w r1 t1 c1) r2 := by
      simp [toggleRecording, hread]
    have hrep : (stopRecording w r1 t1 c1).title
        = String.mk ((documentTitle w).data.drop marker.data.length) := by
      rw [s2]
      conv_lhs => rw [htitle]
      exact replace_marker_append _
    have hmid : documentTitle (stopRecording w r1 t1 c1)
        = String.mk ((documentTitle w).data.drop marker.data.length) := by
      rw [documentTitle, hrep]
      exact congrArg String.mk
        (collapseFrom_start_of_clean _ (Or.inr ⟨hr1, hr2⟩))
    obtain ⟨u1, u2⟩ := startRecording_success (stopRecording w r1 t1 c1) r2 h2
    rw [hfirst, hsecond]
    refine ⟨by rw [u1, hflag], ?_⟩
    rw [documentTitle, u2, hmid, hrest]
    simp only [Bool.false_eq_true, if_false]
    rw [← htitle]
    exact collapse_of_read w
  · -- stopped: start, then stop
    have hflag0 : getVariable w.store.isRecording false = false := by
      simpa using hflag
    simp only [titleInSync, hflag0, Bool.false_eq_true, if_false, Bool.and_eq_true,
      Bool.not_eq_true', decide_eq_true_eq] at hsync
    obtain ⟨hpre, hne⟩ := hsync
    have hclean : startsNonWs (documentTitle w).data = true ∧
        cleanTail (documentTitle w).data = true := by
      rcases documentTitle_clean w with h | h
      · exact absurd (String.ext h) hne
      · exact h
    obtain ⟨s1, s2⟩ := startRecording_success w r1 h1
    have hfirst : toggleRecording w r1 t1 c1 = startRecording w r1 := by
      simp [toggleRecording, hflag0]
    have hread : getVariable (startRecording w r1).store.isRecording false = true := by
      rw [s1]; rfl
    have hsecond : toggleRecording (startRecording w r1) r2 t2 c2
        = stopRecording (startRecording w r1) r2 t2 c2 := by
      simp [toggleRecording, hread]
    have hmid : documentTitle (startRecording w r1) = marker ++ documentTitle w := by
      rw [documentTitle, s2, hpre]
      simp only [Bool.false_eq_true, if_false]
      exact collapse_marker_append _ hclean.1 hclean.2
    obtain ⟨u1, u2⟩ := stopRecording_success (startRecording w r1) r2 c2 t2 h2
    rw [hfirst, hsecond]
    refine ⟨by rw [u1, hflag0], ?_⟩
    rw [documentTitle, u2, hmid, replace_marker_append]
    exact collapse_of_read w

theorem toggle_twice_restores_witness :
    titleInSync recordingWorld = true ∧ titleInSync stoppedWorld = true ∧
    documentTitle (toggleRecording (toggleRecording recordingWorld okResult (some "foo")
      okResult) okResult none okResult) = "🔴 Recording - Page" ∧
    (toggleRecording (toggleRecording stoppedWorld okResult none okResult) okResult
      (some "foo") failedResult).store.isRecording = some false :=
  ⟨by decide, by decide,
    (toggle_twice_restores recordingWorld okResult okResult okResult okResult (some "foo")
      none (by decide) rfl rfl).2.trans (by decide),
    (toggle_twice_restores stoppedWorld okResult okResult okResult failedResult none
      (some "foo") (by decide) rfl rfl).1⟩

/-! ## The locator: shape of the path -/

theorem parentLoop_acc (toLowerCase : String → String) (e : DomNode) :
    ∀ acc : List String,
      parentLoop toLowerCase e acc = parentLoop toLowerCase e [] ++ acc := by
  induction e with
  | null => intro acc; simp [parentLoop]
  | node ty nm prev parent _ ihp =>
    intro acc
    by_cases h : ty = ELEMENT_NODE
    · simp only [parentLoop, h, if_true]
      rw [ihp (_ :: acc), ihp [_]]
      simp
    · simp [parentLoop, h]

theorem intercalate_go_eq (acc : String) (l : List String) :
    String.intercalate.go acc "/" l = acc ++ joinSegs l := by
  induction l generalizing acc with
  | nil => simp [String.intercalate.go, joinSegs]
  | cons a rest ih =>
    simp only [String.intercalate.go, joinSegs, ih, String.append_assoc]

theorem slash_intercalate (l : List String) (h : l ≠ []) :
    "/" ++ "/".intercalate l = joinSegs l := by
  cases l with
  | nil => exact absurd rfl h
  | cons a rest =>
    simp only [String.intercalate, intercalate_go_eq, joinSegs, String.append_assoc]

theorem joinSegs_append (l r : List String) :
    joinSegs (l ++ r) = joinSegs l ++ joinSegs r := by
  induction l with
  | nil => simp [joinSegs]
  | cons a rest ih =>
    show "/" ++ a ++ joinSegs (rest ++ r) = "/" ++ a ++ joinSegs rest ++ joinSegs r
    rw [ih]
    simp only [String.append_assoc]

theorem getElementXPath_eq (toLowerCase : String → String) (e : DomNode) :
    getElementXPath toLowerCase e
      = if parentLoop toLowerCase e [] = [] then none
        else some (joinSegs (parentLoop toLowerCase e [])) := by
  simp only [getElementXPath]
  by_cases h : parentLoop toLowerCase e [] = []
  · simp [h]
  · have hlen : (parentLoop toLowerCase e []).length ≠ 0 := by
      simpa [List.length_eq_zero] using h
    simp only [hlen, ne_eq, not_false_eq_true, if_true, h, if_false]
    rw [slash_intercalate _ h]

theorem siblingLoop_eq (nodeName : String) (prev : DomNode) :
    ∀ k, siblingLoop nodeName prev k
      = k + ((precedingSiblings prev).filter fun s =>
          decide (s.1 ≠ DOCUMENT_TYPE_NODE) && decide (s.2 = nodeName)).length := by
  induction prev with
  | null => intro k; simp [siblingLoop, precedingSiblings]
  | node ty nm prev parent ihs _ =>
    intro k
    by_cases h1 : ty = DOCUMENT_TYPE_NODE
    · simp [siblingLoop, precedingSiblings, h1, ihs]
    · by_cases h2 : nm = nodeName
      · simp [siblingLoop, precedingSiblings, h1, h2, ihs]
        omega
      · simp [siblingLoop, precedingSiblings, h1, h2, ihs]

theorem pathIndex_eq (c : Nat) :
    pathIndex c = if c + 1 = 1 then "" else "[" ++ toString (c + 1) ++ "]" := by
  by_cases h : c = 0 <;> simp [pathIndex, h]

/-- C1: the path of an element is the path of its parent (nothing when the parent is not an
element) followed by `/` and the element's lower-cased name, with no suffix when the element
is the first sibling of its name and with `[N]` when it is the N-th, doctype nodes left out.
The name compared between siblings is `nodeName`, which the code lower-cases into
`tagName` only for the output. -/
theorem getElementXPath_last_segment (toLowerCase : String → String) (nodeName : String)
    (previousSibling parentNode : DomNode) :
    getElementXPath toLowerCase (.node ELEMENT_NODE nodeName previousSibling parentNode)
      = some ((getElementXPath toLowerCase parentNode).getD "" ++ "/"
          ++ toLowerCase nodeName
          ++ (if ordinalAmongSameTag nodeName previousSibling = 1 then ""
              else "[" ++ toString (ordinalAmongSameTag nodeName previousSibling) ++ "]")) := by
  have hparent : (getElementXPath toLowerCase parentNode).getD ""
      = joinSegs (parentLoop toLowerCase parentNode []) := by
    rw [getElementXPath_eq]
    by_cases h : parentLoop toLowerCase parentNode [] = []
    · simp [h, joinSegs]
    · simp [h]
  have hloop : parentLoop toLowerCase
      (.node ELEMENT_NODE nodeName previousSibling parentNode) []
      = parentLoop toLowerCase parentNode []
        ++ [toLowerCase nodeName ++ pathIndex (siblingLoop nodeName previousSibling 0)] := by
    simp only [parentLoop, if_true]
    exact parentLoop_acc _ _ _
  have hidx : pathIndex (siblingLoop nodeName previousSibling 0)
      = (if ordinalAmongSameTag nodeName previousSibling = 1 then ""
          else "[" ++ toString (ordinalAmongSameTag nodeName previousSibling) ++ "]") := by
    rw [siblingLoop_eq, Nat.zero_add]
    exact pathIndex_eq _
  rw [getElementXPath_eq, hloop, hparent, ← hidx]
  simp [joinSegs_append, joinSegs, String.append_assoc]

/-! ## The locator on a document tree -/

theorem precedingSiblings_chain (self : DomNode) (l : List DomTree) :
    precedingSiblings (siblingChain self l) = l.map fun t => (t.nodeType, t.nodeName) := by
  induction l with
  | nil => rfl
  | cons t rest ih => simp [siblingChain, precedingSiblings, ih]

theorem siblingLoop_chain (nodeName : String) (self : DomNode) (l : List DomTree) :
    siblingLoop nodeName (siblingChain self l) 0 = sameNameCount nodeName l := by
  rw [siblingLoop_eq, precedingSiblings_chain, Nat.zero_add, sameNameCount, List.filter_map,
    List.length_map]
  rfl

theorem sameNameCount_reverse (nodeName : String) (l : List DomTree) :
    sameNameCount nodeName l.reverse = sameNameCount nodeName l := by
  simp [sameNameCount]

theorem parentLoop_childRef (toLowerCase : String → String) (self : DomNode)
    (cs : List DomTree) (i : Nat) (c : DomTree) (acc : List String)
    (h : c.nodeType = ELEMENT_NODE) :
    parentLoop toLowerCase (childRef self cs i c) acc
      = parentLoop toLowerCase self
          ((toLowerCase c.nodeName ++ pathIndex (sameNameCount c.nodeName (cs.take i)))
            :: acc) := by
  simp only [childRef, parentLoop, h, if_true, siblingLoop_chain, sameNameCount_reverse]

theorem parentLoop_locateFrom (toLowerCase : String → String) :
    ∀ (addr : List Nat) (t : DomTree) (self : DomNode) (acc : List String),
      isElementAt addr t = true →
      parentLoop toLowerCase (locateFrom addr t self) acc
        = parentLoop toLowerCase self (segmentsBelow toLowerCase addr t ++ acc) := by
  intro addr
  induction addr with
  | nil => intro t self acc _; rfl
  | cons i rest ih =>
    intro t self acc h
    simp only [isElementAt] at h
    cases hc : t.childNodes[i]? with
    | none => simp [hc] at h
    | some c =>
      simp only [hc, Bool.and_eq_true, decide_eq_true_eq] at h
      simp only [locateFrom, segmentsBelow, hc]
      rw [ih c _ acc h.2, parentLoop_childRef _ _ _ _ _ _ h.1]
      rfl

theorem length_segmentsBelow (toLowerCase : String → String) :
    ∀ (addr : List Nat) (t : DomTree), isElementAt addr t = true →
      (segmentsBelow toLowerCase addr t).length = addr.length := by
  intro addr
  induction addr with
  | nil => intro t _; rfl
  | cons i rest ih =>
    intro t h
    simp only [isElementAt] at h
    cases hc : t.childNodes[i]? with
    | none => simp [hc] at h
    | some c =>
      simp only [hc, Bool.and_eq_true, decide_eq_true_eq] at h
      simp [segmentsBelow, hc, ih c h.2]

/-! ## Decimal digits -/

theorem digitChar_value (d : Nat) (h : d < 10) :
    (Nat.digitChar d).toNat - 48 = d ∧ Nat.digitChar d ≠ '/' := by
  interval_cases d <;> decide

theorem digitsValue_snoc (l : List Char) (c : Char) :
    digitsValue (l ++ [c]) = 10 * digitsValue l + (c.toNat - 48) := by
  simp [digitsValue, List.foldl_append]

theorem toDigitsCore_spec :
    ∀ (fuel n : Nat) (ds : List Char), n < fuel →
      ∃ l, Nat.toDigitsCore 10 fuel n ds = l ++ ds ∧ digitsValue l = n ∧ '/' ∉ l := by
  intro fuel
  induction fuel with
  | zero => intro n ds h; omega
  | succ fuel ih =>
    intro n ds h
    obtain ⟨hv, hs⟩ := digitChar_value (n % 10) (Nat.mod_lt _ (by decide))
    by_cases hq : n / 10 = 0
    · refine ⟨[Nat.digitChar (n % 10)], ?_, ?_, ?_⟩
      · simp [Nat.toDigitsCore, hq]
      · have hmod : n % 10 = n := by omega
        simp only [digitsValue, List.foldl_cons, List.foldl_nil, hv]
        omega
      · simpa using hs.symm
    · obtain ⟨l, h1, h2, h3⟩ := ih (n / 10) (Nat.digitChar (n % 10) :: ds) (by omega)
      refine ⟨l ++ [Nat.digitChar (n % 10)], ?_, ?_, ?_⟩
      · simp [Nat.toDigitsCore, hq, h1]
      · rw [digitsValue_snoc, h2, hv]
        omega
      · simp only [List.mem_append, List.mem_singleton, not_or]
        exact ⟨h3, hs.symm⟩

theorem toDigits_spec (n : Nat) :
    digitsValue (Nat.toDigits 10 n) = n ∧ '/' ∉ Nat.toDigits 10 n := by
  obtain ⟨l, h1, h2, h3⟩ := toDigitsCore_spec (n + 1) n [] (Nat.lt_succ_self n)
  simp only [List.append_nil] at h1
  simp only [Nat.toDigits, h1]
  exact ⟨h2, h3⟩

theorem toDigits_injective (m n : Nat) (h : Nat.toDigits 10 m = Nat.toDigits 10 n) :
    m = n := by
  rw [← (toDigits_spec m).1, ← (toDigits_spec n).1, h]

/-! ## Cutting a character list at a separator -/

theorem cut_at_separator (c : Char) :
    ∀ (s1 s2 r1 r2 : List Char), c ∉ s1 → c ∉ s2 →
      (r1 = [] ∨ ∃ t, r1 = c :: t) → (r2 = [] ∨ ∃ t, r2 = c :: t) →
      s1 ++ r1 = s2 ++ r2 → s1 = s2 ∧ r1 = r2 := by
  intro s1
  induction s1 with
  | nil =>
    intro s2 r1 r2 _ h2 hr1 _ h
    cases s2 with
    | nil => exact ⟨rfl, by simpa using h⟩
    | cons y s2 =>
      exfalso
      rcases hr1 with hr1 | ⟨t, hr1⟩
      · subst hr1; simp at h
      · subst hr1
        simp only [List.nil_append, List.cons_append, List.cons.injEq] at h
        exact h2 (by simp [h.1])
  | cons x s1 ih =>
    intro s2 r1 r2 h1 h2 hr1 hr2 h
    cases s2 with
    | nil =>
      exfalso
      rcases hr2 with hr2 | ⟨t, hr2⟩
      · subst hr2; simp at h
      · subst hr2
        simp only [List.nil_append, List.cons_append, List.cons.injEq] at h
        exact h1 (by simp [h.1])
    | cons y s2 =>
      simp only [List.cons_append, List.cons.injEq] at h
      obtain ⟨e1, e2⟩ :=
        ih s2 r1 r2 (fun hm => h1 (List.mem_cons_of_mem _ hm))
          (fun hm => h2 (List.mem_cons_of_mem _ hm)) hr1 hr2 h.2
      exact ⟨by rw [h.1, e1], e2⟩

/-! ## Segments can be read back -/

theorem pathIndex_data (k : Nat) :
    (pathIndex k).data
      = if k = 0 then [] else '[' :: (Nat.toDigits 10 (k + 1) ++ [']']) := by
  by_cases h : k = 0
  · simp [pathIndex, h]
  · simp only [pathIndex, h, ne_eq, not_false_eq_true, if_true, if_false, String.data_append]
    rfl

theorem pathIndex_shape (k : Nat) :
    (pathIndex k).data = [] ∨ ∃ t, (pathIndex k).data = '[' :: t := by
  rw [pathIndex_data]
  by_cases h : k = 0
  · simp [h]
  · simp [h]

theorem pathIndex_injective (k1 k2 : Nat) (h : (pathIndex k1).data = (pathIndex k2).data) :
    k1 = k2 := by
  rw [pathIndex_data, pathIndex_data] at h
  by_cases h1 : k1 = 0 <;> by_cases h2 : k2 = 0
  · rw [h1, h2]
  · simp [h1, h2] at h
  · simp [h1, h2] at h
  · simp only [h1, h2, if_false, List.cons.injEq, true_and] at h
    have hd := toDigits_injective _ _ (List.append_cancel_right h)
    omega

theorem pathIndex_no_slash (k : Nat) : '/' ∉ (pathIndex k).data := by
  rw [pathIndex_data]
  by_cases h : k = 0
  · simp [h]
  · simp only [h, if_false, List.mem_cons, List.mem_append, List.mem_singleton, not_or]
    exact ⟨by decide, (toDigits_spec (k + 1)).2, by decide, List.not_mem_nil _⟩

theorem segment_injective (n1 n2 : String) (k1 k2 : Nat)
    (h1 : '[' ∉ n1.data) (h2 : '[' ∉ n2.data)
    (h : n1 ++ pathIndex k1 = n2 ++ pathIndex k2) : n1 = n2 ∧ k1 = k2 := by
  have hd : n1.data ++ (pathIndex k1).data = n2.data ++ (pathIndex k2).data := by
    rw [← String.data_append, ← String.data_append, h]
  obtain ⟨e1, e2⟩ :=
    cut_at_separator '[' _ _ _ _ h1 h2 (pathIndex_shape k1) (pathIndex_shape k2) hd
  exact ⟨String.ext e1, pathIndex_injective _ _ e2⟩

theorem segment_no_slash (n : String) (k : Nat) (h : '/' ∉ n.data) :
    '/' ∉ (n ++ pathIndex k).data := by
  rw [String.data_append, List.mem_append, not_or]
  exact ⟨h, pathIndex_no_slash k⟩

theorem joinSegs_shape (l : List String) :
    (joinSegs l).data = [] ∨ ∃ t, (joinSegs l).data = '/' :: t := by
  cases l with
  | nil => exact Or.inl rfl
  | cons a rest =>
    refine Or.inr ⟨a.data ++ (joinSegs rest).data, ?_⟩
    simp only [joinSegs, String.data_append]
    rfl

theorem joinSegs_injective :
    ∀ l1 l2 : List String, (∀ s ∈ l1, '/' ∉ s.data) → (∀ s ∈ l2, '/' ∉ s.data) →
      joinSegs l1 = joinSegs l2 → l1 = l2 := by
  intro l1
  induction l1 with
  | nil =>
    intro l2 _ _ h
    cases l2 with
    | nil => rfl
    | cons b r2 =>
      exfalso
      have hd := congrArg String.data h
      simp only [joinSegs, String.data_append] at hd
      exact absurd hd (by simp [show "".data = [] from rfl, show "/".data = ['/'] from rfl])
  | cons a r1 ih =>
    intro l2 h1 h2 h
    cases l2 with
    | nil =>
      exfalso
      have hd := congrArg String.data h
      simp only [joinSegs, String.data_append] at hd
      exact absurd hd (by simp [show "".data = [] from rfl, show "/".data = ['/'] from rfl])
    | cons b r2 =>
      have hd := congrArg String.data h
      simp only [joinSegs, String.data_append, show "/".data = ['/'] from rfl,
        List.singleton_append, List.cons_append, List.cons.injEq, true_and,
        List.nil_append] at hd
      obtain ⟨e1, e2⟩ :=
        cut_at_separator '/' _ _ _ _ (h1 a (List.mem_cons_self _ _))
          (h2 b (List.mem_cons_self _ _)) (joinSegs_shape r1) (joinSegs_shape r2) hd
      have hr := ih r2 (fun s hs => h1 s (List.mem_cons_of_mem _ hs))
        (fun s hs => h2 s (List.mem_cons_of_mem _ hs)) (String.ext e2)
      rw [String.ext e1, hr]

/-! ## Distinct elements, distinct paths -/

theorem DomTree.all_root (p : DomTree → Bool) (t : DomTree) (h : t.all p = true) :
    p t = true := by
  cases t with
  | mk ty nm cs =>
    simp only [DomTree.all, Bool.and_eq_true] at h
    exact h.1

theorem DomTree.allList_mem (p : DomTree → Bool) :
    ∀ cs : List DomTree, DomTree.allList p cs = true → ∀ c ∈ cs, c.all p = true := by
  intro cs
  induction cs with
  | nil => intro _ c hc; simp at hc
  | cons d rest ih =>
    intro h c hc
    simp only [DomTree.allList, Bool.and_eq_true] at h
    rcases List.mem_cons.1 hc with rfl | hmem
    · exact h.1
    · exact ih h.2 c hmem

theorem DomTree.all_child (p : DomTree → Bool) (t c : DomTree) (h : t.all p = true)
    (hc : c ∈ t.childNodes) : c.all p = true := by
  cases t with
  | mk ty nm cs =>
    simp only [DomTree.all, Bool.and_eq_true] at h
    exact DomTree.allList_mem p cs h.2 c hc

theorem sameNameCount_lt (cs : List DomTree) (i j : Nat) (x : DomTree)
    (hx : cs[i]? = some x) (hel : x.nodeType = ELEMENT_NODE) (hij : i < j) :
    sameNameCount x.nodeName (cs.take i) < sameNameCount x.nodeName (cs.take j) := by
  have hstep : sameNameCount x.nodeName (cs.take (i + 1))
      = sameNameCount x.nodeName (cs.take i) + 1 := by
    have hne : x.nodeType ≠ DOCUMENT_TYPE_NODE := by
      rw [hel]; decide
    simp [sameNameCount, List.take_succ, hx, List.filter_append, hne]
  have hmono : sameNameCount x.nodeName (cs.take (i + 1))
      ≤ sameNameCount x.nodeName (cs.take j) :=
    ((List.take_sublist_take_left cs (Nat.succ_le_of_lt hij)).filter _).length_le
  omega

theorem segmentsBelow_no_slash (toLowerCase : String → String) :
    ∀ (addr : List Nat) (t : DomTree), isElementAt addr t = true →
      t.all (plainName toLowerCase) = true →
      ∀ s ∈ segmentsBelow toLowerCase addr t, '/' ∉ s.data := by
  intro addr
  induction addr with
  | nil => intro t _ _ s hs; simp [segmentsBelow] at hs
  | cons i rest ih =>
    intro t h hp s hs
    simp only [isElementAt] at h
    cases hc : t.childNodes[i]? with
    | none => simp [hc] at h
    | some c =>
      simp only [hc, Bool.and_eq_true, decide_eq_true_eq] at h
      have hcp := DomTree.all_child _ t c hp (List.getElem?_mem hc)
      have hplain := DomTree.all_root _ c hcp
      simp only [plainName, decide_eq_true_eq] at hplain
      simp only [segmentsBelow, hc, List.mem_cons] at hs
      rcases hs with rfl | hs
      · exact segment_no_slash _ _ (hplain h.1).1
      · exact ih c h.2 hcp s hs

theorem segmentsBelow_injective (toLowerCase : String → String) :
    ∀ (a b : List Nat) (t : DomTree), isElementAt a t = true → isElementAt b t = true →
      t.all (caseConsistent toLowerCase) = true → t.all (plainName toLowerCase) = true →
      segmentsBelow toLowerCase a t = segmentsBelow toLowerCase b t → a = b := by
  intro a
  induction a with
  | nil =>
    intro b t _ hb _ _ h
    have hl := congrArg List.length h
    rw [length_segmentsBelow _ _ _ hb] at hl
    exact (List.length_eq_zero.1 hl.symm).symm
  | cons i a ih =>
    intro b t ha hb hcase hplain h
    cases b with
    | nil =>
      have hl := congrArg List.length h
      rw [length_segmentsBelow _ _ _ ha] at hl
      simp [segmentsBelow] at hl
    | cons j b =>
      simp only [isElementAt] at ha hb
      cases hx : t.childNodes[i]? with
      | none => simp [hx] at ha
      | some x =>
        cases hy : t.childNodes[j]? with
        | none => simp [hy] at hb
        | some y =>
          simp only [hx, Bool.and_eq_true, decide_eq_true_eq] at ha
          simp only [hy, Bool.and_eq_true, decide_eq_true_eq] at hb
          simp only [segmentsBelow, hx, hy, List.cons.injEq] at h
          have hxm : x ∈ t.childNodes := List.getElem?_mem hx
          have hym : y ∈ t.childNodes := List.getElem?_mem hy
          have hxall := DomTree.all_child _ t x hplain hxm
          have hyall := DomTree.all_child _ t y hplain hym
          have hxp := DomTree.all_root _ x hxall
          have hyp := DomTree.all_root _ y hyall
          simp only [plainName, decide_eq_true_eq] at hxp hyp
          obtain ⟨hlow, hcount⟩ :=
            segment_injective _ _ _ _ (hxp ha.1).2 (hyp hb.1).2 h.1
          have hcons := DomTree.all_root _ t hcase
          simp only [caseConsistent, List.all_eq_true, decide_eq_true_eq] at hcons
          have hname : x.nodeName = y.nodeName := hcons x hxm y hym ha.1 hb.1 hlow
          have hij : i = j := by
            rcases Nat.lt_trichotomy i j with hlt | heq | hgt
            · have := sameNameCount_lt t.childNodes i j x hx ha.1 hlt
              rw [hname] at this hcount
              omega
            · exact heq
            · have := sameNameCount_lt t.childNodes j i y hy hb.1 hgt
              rw [← hname] at this
              rw [hname] at hcount this
              omega
          subst hij
          have hxy : x = y := by
            rw [hx] at hy
            exact Option.some.inj hy
          subst hxy
          rw [ih b x ha.2 hb.2 (DomTree.all_child _ t x hcase hxm) hxall h.2]

theorem rootSegments_eq (toLowerCase : String → String) (root : DomTree) :
    parentLoop toLowerCase (.node root.nodeType root.nodeName .null .null) []
      = if root.nodeType = ELEMENT_NODE then [toLowerCase root.nodeName ++ pathIndex 0]
        else [] := by
  by_cases h : root.nodeType = ELEMENT_NODE <;> simp [parentLoop, siblingLoop, h]

theorem paths_locate (toLowerCase : String → String) (root : DomTree) (addr : List Nat)
    (h : isElementAt addr root = true) :
    parentLoop toLowerCase (locate root addr) []
      = parentLoop toLowerCase (.node root.nodeType root.nodeName .null .null) []
        ++ segmentsBelow toLowerCase addr root := by
  rw [locate, parentLoop_locateFrom toLowerCase addr root _ [] h, List.append_nil,
    parentLoop_acc]

theorem isElementAt_of_isElementAddr (root : DomTree) (addr : List Nat)
    (h : isElementAddr root addr = true) : isElementAt addr root = true := by
  cases addr with
  | nil => rfl
  | cons i rest => exact h

theorem paths_locate_ne_nil (toLowerCase : String → String) (root : DomTree)
    (addr : List Nat) (h : isElementAddr root addr = true) :
    parentLoop toLowerCase (locate root addr) [] ≠ [] := by
  rw [paths_locate _ _ _ (isElementAt_of_isElementAddr root addr h), rootSegments_eq]
  cases addr with
  | nil =>
    simp only [isElementAddr, decide_eq_true_eq] at h
    simp [h]
  | cons i rest =>
    have hl := length_segmentsBelow toLowerCase (i :: rest) root h
    intro hnil
    have := congrArg List.length hnil
    simp only [List.length_append, hl, List.length_cons, List.length_nil] at this
    omega

theorem paths_locate_no_slash (toLowerCase : String → String) (root : DomTree)
    (addr : List Nat) (h : isElementAt addr root = true)
    (hplain : root.all (plainName toLowerCase) = true) :
    ∀ s ∈ parentLoop toLowerCase (locate root addr) [], '/' ∉ s.data := by
  intro s hs
  rw [paths_locate _ _ _ h, rootSegments_eq, List.mem_append] at hs
  rcases hs with hs | hs
  · by_cases hel : root.nodeType = ELEMENT_NODE
    · simp only [hel, if_true, List.mem_singleton] at hs
      have hp := DomTree.all_root _ root hplain
      simp only [plainName, decide_eq_true_eq] at hp
      rw [hs]
      exact segment_no_slash _ _ (hp hel).1
    · simp [hel] at hs
  · exact segmentsBelow_no_slash toLowerCase addr root h hplain s hs

/-- C2, the claim fails: in a document whose `body` holds an element named `A` and an
element named `a`, the two distinct elements receive the same path `/html/body/a`. -/
theorem same_path_for_names_differing_in_case :
    isElementAddr mixedCaseDocument [0, 0, 0] = true ∧
    isElementAddr mixedCaseDocument [0, 0, 1] = true ∧
    ([0, 0, 0] : List Nat) ≠ [0, 0, 1] ∧
    getElementXPath asciiLower (locate mixedCaseDocument [0, 0, 0]) = some "/html/body/a" ∧
    getElementXPath asciiLower (locate mixedCaseDocument [0, 0, 1]) = some "/html/body/a" := by
  decide

/-- C2, amended: in a document tree where sibling elements whose names agree after
lower-casing have the same name, and no lower-cased element name contains `/` or `[`, two
distinct elements receive distinct paths; the path of an element is never `null`, and the
path of `null` is `null`. -/
theorem distinct_elements_distinct_paths (toLowerCase : String → String) (root : DomTree)
    (a b : List Nat)
    (ha : isElementAddr root a = true) (hb : isElementAddr root b = true)
    (hcase : root.all (caseConsistent toLowerCase) = true)
    (hplain : root.all (plainName toLowerCase) = true)
    (hab : a ≠ b) :
    getElementXPath toLowerCase (locate root a) ≠ getElementXPath toLowerCase (locate root b) ∧
    (getElementXPath toLowerCase (locate root a)).isSome = true ∧
    getElementXPath toLowerCase DomNode.null = none := by
  have ha1 := isElementAt_of_isElementAddr root a ha
  have hb1 := isElementAt_of_isElementAddr root b hb
  have hna := paths_locate_ne_nil toLowerCase root a ha
  have hnb := paths_locate_ne_nil toLowerCase root b hb
  refine ⟨?_, ?_, ?_⟩
  · intro heq
    rw [getElementXPath_eq, getElementXPath_eq, if_neg hna, if_neg hnb] at heq
    have hpaths := joinSegs_injective _ _
      (paths_locate_no_slash toLowerCase root a ha1 hplain)
      (paths_locate_no_slash toLowerCase root b hb1 hplain) (Option.some.inj heq)
    rw [paths_locate _ _ _ ha1, paths_locate _ _ _ hb1] at hpaths
    exact hab (segmentsBelow_injective toLowerCase a b root ha1 hb1 hcase hplain
      (List.append_cancel_left hpaths))
  · rw [getElementXPath_eq, if_neg hna]
    rfl
  · rfl

theorem distinct_elements_distinct_paths_witness :
    getElementXPath asciiLower (locate listDocument [1, 1, 0, 0])
      ≠ getElementXPath asciiLower (locate listDocument [1, 1, 0, 2]) :=
  (distinct_elements_distinct_paths asciiLower listDocument [1, 1, 0, 0] [1, 1, 0, 2]
    (by decide) (by decide) (by decide) (by decide) (by decide)).1

/-- The three list items of `listDocument` receive paths ending in `li`, `li[2]`, `li[3]`,
and the root element is not numbered after the doctype of the same name. -/
theorem list_item_paths :
    getElementXPath asciiLower (locate listDocument [1, 1, 0, 0])
      = some "/html/body/ul/li" ∧
    getElementXPath asciiLower (locate listDocument [1, 1, 0, 2])
      = some "/html/body/ul/li[2]" ∧
    getElementXPath asciiLower (locate listDocument [1, 1, 0, 3])
      = some "/html/body/ul/li[3]" ∧
    getElementXPath asciiLower (locate listDocument []) = none := by
  decide

end Recorder
